import Mathlib

/-!
Shallow embedding of the DataFilter-Builder filtering engine.

Sources embedded here:
- the field catalog (src/src/data/fieldDefinitions.ts, FIELD_DEFINITIONS);
- the engine (src/unnamed/part_003: getNestedValue, validateCondition,
  testCondition, filterEmployees);
- the sort comparator (src/unnamed/part_005, useSortedData).

JavaScript dynamic values are embedded as explicit inductive types.  The
JavaScript number type is embedded as JNum (finite rationals plus the two
infinities and NaN); the builtin Number(string) conversion is embedded for
the decimal-literal and Infinity forms, every other string maps to NaN.
The builtin Date constructor is embedded for ISO YYYY-MM-DD strings, every
other string is an invalid date; a parsed date is encoded as the integer
y*10000 + m*100 + d, which is strictly monotone in the calendar order.  The
ambient clock used by the last_30_days operator is passed explicitly as the
integer parameter named cutoff (the encoded value of now minus 30 days).
-/

/-- JNum embeds the JavaScript number type: NaN, the two infinities
(inf true is positive infinity), and finite values as rationals. -/
inductive JNum where
  | nan : JNum
  | inf : Bool → JNum
  | num : ℚ → JNum
deriving DecidableEq, Repr

/-- Embeds the JavaScript isNaN test on a number. -/
def JNum.isNaN : JNum → Bool
  | JNum.nan => true
  | _ => false

/-- Embeds the JavaScript strict comparison a < b on numbers (false when
either side is NaN). -/
def JNum.lt : JNum → JNum → Bool
  | JNum.nan, _ => false
  | _, JNum.nan => false
  | JNum.num a, JNum.num b => decide (a < b)
  | JNum.num _, JNum.inf p => p
  | JNum.inf p, JNum.num _ => !p
  | JNum.inf p, JNum.inf q => !p && q

/-- Embeds the JavaScript comparison a <= b on numbers (false when either
side is NaN). -/
def JNum.le : JNum → JNum → Bool
  | JNum.nan, _ => false
  | _, JNum.nan => false
  | JNum.num a, JNum.num b => decide (a ≤ b)
  | JNum.num _, JNum.inf p => p
  | JNum.inf p, JNum.num _ => !p
  | JNum.inf p, JNum.inf q => !p || q

/-- Embeds the JavaScript strict equality a === b on numbers (NaN is not
equal to anything, including itself). -/
def JNum.jsEq : JNum → JNum → Bool
  | JNum.num a, JNum.num b => a == b
  | JNum.inf p, JNum.inf q => p == q
  | _, _ => false

/-- Numeric value of a list of decimal digit characters. -/
def decDigitsVal (s : List Char) : Nat :=
  s.foldl (fun n c => n * 10 + (c.toNat - 48)) 0

/-- Whitespace trimming on a character list (the embedding of the string
trim of the source on its character content). -/
def trimCh (l : List Char) : List Char :=
  ((l.dropWhile Char.isWhitespace).reverse.dropWhile Char.isWhitespace).reverse

/-- Splitting a character list on a separator character (the embedding of
the string splitOn of the source on its character content). -/
def splitOnCh (sep : Char) : List Char → List (List Char)
  | [] => [[]]
  | c :: t =>
    if c == sep then [] :: splitOnCh sep t
    else
      match splitOnCh sep t with
      | [] => [[c]]
      | g :: gs => (c :: g) :: gs

/-- Lowercasing of a character list (the embedding of toLowerCase on the
character content; the embedded subset maps ASCII letters). -/
def lowerCh (l : List Char) : List Char :=
  l.map Char.toLower

/-- Decimal literal parser used by the embedding of Number(string): an
optional integer part, an optional dot, an optional fractional part, with
at least one digit overall. -/
def parseDecFrac (body : List Char) : Option ℚ :=
  match splitOnCh '.' body with
  | [w] =>
    if !w.isEmpty && w.all Char.isDigit then
      some (decDigitsVal w : ℚ)
    else none
  | [w, f] =>
    if w.all Char.isDigit && f.all Char.isDigit
        && (!w.isEmpty || !f.isEmpty) then
      some ((decDigitsVal w : ℚ)
        + (decDigitsVal f : ℚ) / ((10 : ℚ) ^ f.length))
    else none
  | _ => none

/-- Embeds the JavaScript Number(string) conversion: the surrounding
whitespace is trimmed, the empty string converts to 0, a sign followed by
Infinity converts to an infinity, a signed decimal literal converts to its
value, and every other string converts to NaN (the exotic literal forms,
hexadecimal and exponent notation, are outside the embedded subset). -/
def parseJsNumber (s : String) : JNum :=
  let t := trimCh s.toList
  if t.isEmpty then JNum.num 0
  else
    let neg := t.head? == some '-'
    let body := if t.head? == some '-' || t.head? == some '+' then t.tail else t
    if body == "Infinity".toList then JNum.inf (!neg)
    else
      match parseDecFrac body with
      | some q => JNum.num (if neg then -q else q)
      | none => JNum.nan

/-- Embeds the JavaScript Date constructor on a string, composed with the
isValidDate guard of the source: an ISO YYYY-MM-DD string maps to the
integer y*10000 + m*100 + d (monotone in calendar order), every other
string maps to none (an invalid date). -/
def parseIsoDate (s : String) : Option Int :=
  match splitOnCh '-' s.toList with
  | [y, m, d] =>
    if y.length == 4 && m.length == 2 && d.length == 2
        && y.all Char.isDigit && m.all Char.isDigit && d.all Char.isDigit
        && 1 ≤ decDigitsVal m && decDigitsVal m ≤ 12
        && 1 ≤ decDigitsVal d && decDigitsVal d ≤ 31 then
      some ((decDigitsVal y : Int) * 10000
        + (decDigitsVal m : Int) * 100 + (decDigitsVal d : Int))
    else none
  | _ => none

/-- Address sub-object of an Employee record (src/src/types/index.ts). -/
structure Address where
  city : String
  state : String
  country : String
deriving DecidableEq, Repr

/-- Employee record (src/src/types/index.ts).  TypeScript number fields
are embedded as rationals. -/
structure Employee where
  id : ℚ
  name : String
  email : String
  department : String
  role : String
  salary : ℚ
  joinDate : String
  isActive : Bool
  skills : List String
  address : Address
  projects : ℚ
  lastReview : String
  performanceRating : ℚ
deriving DecidableEq, Repr

/-- JValue embeds the dynamic JavaScript values that dot-path resolution
on an Employee record can produce. -/
inductive JValue where
  | str : String → JValue
  | num : ℚ → JValue
  | bool : Bool → JValue
  | arr : List String → JValue
  | obj : Address → JValue
deriving DecidableEq, Repr

/-- FilterValue embeds the value slot of a condition
(src/src/types/index.ts): a plain string, a boolean, a string list, a
date range object with from and to slots, a min and max range object
(AmountRangeValue and NumberBetweenValue share this shape), or null. -/
inductive FilterValue where
  | str : String → FilterValue
  | bool : Bool → FilterValue
  | arr : List String → FilterValue
  | range : String → String → FilterValue
  | minmax : String → String → FilterValue
  | null : FilterValue
deriving DecidableEq, Repr

/-- FieldType enumeration (src/src/types/index.ts). -/
inductive FieldType where
  | text
  | number
  | date
  | amount
  | singleSelect
  | multiSelect
  | boolean
deriving DecidableEq, Repr

/-- FieldDefinition (src/src/types/index.ts); absent options are embedded
as the empty list. -/
structure FieldDefinition where
  key : String
  label : String
  type : FieldType
  options : List String
deriving DecidableEq, Repr

/-- FilterCondition (src/src/types/index.ts); the operator is kept as a
string exactly as the source switches on string tags. -/
structure FilterCondition where
  id : String
  fieldKey : String
  operator : String
  value : FilterValue
  isValid : Bool
deriving DecidableEq, Repr

/-- Department options (src/src/data/fieldDefinitions.ts). -/
def DEPARTMENTS : List String :=
  ["Engineering", "Design", "Product", "Marketing", "Sales", "HR",
   "Finance", "Operations"]

/-- Country options (src/src/data/fieldDefinitions.ts). -/
def COUNTRIES : List String :=
  ["USA", "Canada", "UK", "Germany", "Australia", "India"]

/-- Skill options (src/src/data/fieldDefinitions.ts). -/
def ALL_SKILLS : List String :=
  ["React", "TypeScript", "Node.js", "GraphQL", "Python", "Java", "Go",
   "PostgreSQL", "MongoDB", "AWS", "Docker", "Kubernetes", "Vue.js",
   "Angular", "Swift", "Kotlin", "Figma", "Sketch", "Agile", "Scrum"]

/-- The field catalog (src/src/data/fieldDefinitions.ts,
FIELD_DEFINITIONS). -/
def FIELD_DEFINITIONS : List FieldDefinition :=
  [⟨"name", "Name", FieldType.text, []⟩,
   ⟨"email", "Email", FieldType.text, []⟩,
   ⟨"department", "Department", FieldType.singleSelect, DEPARTMENTS⟩,
   ⟨"role", "Role", FieldType.text, []⟩,
   ⟨"salary", "Salary", FieldType.amount, []⟩,
   ⟨"joinDate", "Join Date", FieldType.date, []⟩,
   ⟨"lastReview", "Last Review", FieldType.date, []⟩,
   ⟨"isActive", "Active Status", FieldType.boolean, []⟩,
   ⟨"skills", "Skills", FieldType.multiSelect, ALL_SKILLS⟩,
   ⟨"address.city", "City", FieldType.text, []⟩,
   ⟨"address.state", "State", FieldType.text, []⟩,
   ⟨"address.country", "Country", FieldType.singleSelect, COUNTRIES⟩,
   ⟨"projects", "Projects Count", FieldType.number, []⟩,
   ⟨"performanceRating", "Performance Rating", FieldType.number, []⟩]

/-- Embeds getNestedValue (src/unnamed/part_003): dot-path resolution of a
key against a record, specialised to the Employee record shape; a key that
does not denote an Employee path resolves to none (undefined). -/
def getNestedValue (e : Employee) : String → Option JValue
  | "id" => some (JValue.num e.id)
  | "name" => some (JValue.str e.name)
  | "email" => some (JValue.str e.email)
  | "department" => some (JValue.str e.department)
  | "role" => some (JValue.str e.role)
  | "salary" => some (JValue.num e.salary)
  | "joinDate" => some (JValue.str e.joinDate)
  | "isActive" => some (JValue.bool e.isActive)
  | "skills" => some (JValue.arr e.skills)
  | "address" => some (JValue.obj e.address)
  | "address.city" => some (JValue.str e.address.city)
  | "address.state" => some (JValue.str e.address.state)
  | "address.country" => some (JValue.str e.address.country)
  | "projects" => some (JValue.num e.projects)
  | "lastReview" => some (JValue.str e.lastReview)
  | "performanceRating" => some (JValue.num e.performanceRating)
  | _ => none

/-- Embeds the JavaScript String(v) conversion on a resolved record
value. -/
def jsToStr : JValue → String
  | JValue.str s => s
  | JValue.num q => if q.den == 1 then toString q.num else toString q
  | JValue.bool b => if b then "true" else "false"
  | JValue.arr xs => String.intercalate "," xs
  | JValue.obj _ => "[object Object]"

/-- Embeds the expression String(value ?? "") on a condition value. -/
def jsValueToStr : FilterValue → String
  | FilterValue.null => ""
  | FilterValue.str s => s
  | FilterValue.bool b => if b then "true" else "false"
  | FilterValue.arr xs => String.intercalate "," xs
  | FilterValue.range _ _ => "[object Object]"
  | FilterValue.minmax _ _ => "[object Object]"

/-- Embeds the JavaScript Number(v) conversion on a resolved record
value. -/
def jsToNum : JValue → JNum
  | JValue.num q => JNum.num q
  | JValue.str s => parseJsNumber s
  | JValue.bool b => JNum.num (if b then 1 else 0)
  | JValue.arr [] => JNum.num 0
  | JValue.arr [x] => parseJsNumber x
  | JValue.arr _ => JNum.nan
  | JValue.obj _ => JNum.nan

/-- Embeds the JavaScript Number(v) conversion on a condition value. -/
def jsValueToNum : FilterValue → JNum
  | FilterValue.null => JNum.num 0
  | FilterValue.str s => parseJsNumber s
  | FilterValue.bool b => JNum.num (if b then 1 else 0)
  | FilterValue.arr [] => JNum.num 0
  | FilterValue.arr [x] => parseJsNumber x
  | FilterValue.arr _ => JNum.nan
  | FilterValue.range _ _ => JNum.nan
  | FilterValue.minmax _ _ => JNum.nan

/-- Embeds the JavaScript Boolean(v) conversion on a resolved record
value. -/
def jsTruthy : JValue → Bool
  | JValue.str s => s != ""
  | JValue.num q => q != 0
  | JValue.bool b => b
  | JValue.arr _ => true
  | JValue.obj _ => true

/-- Character-list test: ned occurs at the start of hay. -/
def charsPre : List Char → List Char → Bool
  | [], _ => true
  | _ :: _, [] => false
  | a :: as, b :: bs => a == b && charsPre as bs

/-- Character-list test: ned occurs contiguously somewhere in hay. -/
def charsSub (ned : List Char) : List Char → Bool
  | [] => ned.isEmpty
  | c :: t => charsPre ned (c :: t) || charsSub ned t

/-- Embeds validateCondition (src/unnamed/part_003): decides whether a
condition carries enough data to be applied; the isValid flag of the
argument is ignored, exactly as the source takes the condition without
that field. -/
def validateCondition (condition : FilterCondition) : Bool :=
  match FIELD_DEFINITIONS.find? (fun f => f.key == condition.fieldKey) with
  | none => false
  | some field =>
    match field.type with
    | FieldType.text =>
      match condition.value with
      | FilterValue.str s => !(trimCh s.toList).isEmpty
      | _ => false
    | FieldType.number =>
      if condition.operator == "between" then
        match condition.value with
        | FilterValue.minmax mn mx => mn != "" || mx != ""
        | _ => false
      else
        condition.value != FilterValue.null
          && condition.value != FilterValue.str ""
          && !(jsValueToNum condition.value).isNaN
    | FieldType.date =>
      if condition.operator == "last_30_days" then true
      else
        match condition.value with
        | FilterValue.range fr toS =>
          if condition.operator == "before" || condition.operator == "after" then
            fr != ""
          else
            fr != "" || toS != ""
        | _ => false
    | FieldType.amount =>
      match condition.value with
      | FilterValue.minmax mn mx => mn != "" || mx != ""
      | _ => false
    | FieldType.singleSelect =>
      match condition.value with
      | FilterValue.str s => s != ""
      | _ => false
    | FieldType.multiSelect =>
      match condition.value with
      | FilterValue.arr xs => !xs.isEmpty
      | _ => false
    | FieldType.boolean => true

/-- Embeds testCondition (src/unnamed/part_003): tests one condition
against one Employee record; cutoff is the explicit ambient-clock
parameter used only by the last_30_days operator. -/
def testCondition (employee : Employee) (condition : FilterCondition)
    (cutoff : Int) : Bool :=
  match FIELD_DEFINITIONS.find? (fun f => f.key == condition.fieldKey) with
  | none => true
  | some field =>
    match getNestedValue employee condition.fieldKey with
    | none => false
    | some raw =>
      match field.type with
      | FieldType.text =>
        let haystack := lowerCh (jsToStr raw).toList
        let needle := lowerCh (jsValueToStr condition.value).toList
        match condition.operator with
        | "equals" => haystack == needle
        | "contains" => charsSub needle haystack
        | "starts_with" => charsPre needle haystack
        | "ends_with" => charsPre needle.reverse haystack.reverse
        | "not_contains" => !(charsSub needle haystack)
        | _ => true
      | FieldType.number =>
        let n := jsToNum raw
        if condition.operator == "between" then
          match condition.value with
          | FilterValue.minmax mn mx =>
            if mn != "" && !(parseJsNumber mn).isNaN
                && JNum.lt n (parseJsNumber mn) then false
            else if mx != "" && !(parseJsNumber mx).isNaN
                && JNum.lt (parseJsNumber mx) n then false
            else true
          | _ => true
        else
          let fv := jsValueToNum condition.value
          if fv.isNaN then true
          else
            match condition.operator with
            | "equals" => JNum.jsEq n fv
            | "not_equals" => !(JNum.jsEq n fv)
            | "gt" => JNum.lt fv n
            | "lt" => JNum.lt n fv
            | "gte" => JNum.le fv n
            | "lte" => JNum.le n fv
            | _ => true
      | FieldType.date =>
        match (match raw with
               | JValue.str s => parseIsoDate s
               | _ => none) with
        | none => false
        | some d =>
          if condition.operator == "last_30_days" then decide (cutoff ≤ d)
          else
            match condition.value with
            | FilterValue.range fr toS =>
              if condition.operator == "before" then
                if fr == "" then true
                else
                  match parseIsoDate fr with
                  | none => false
                  | some t => decide (d < t)
              else if condition.operator == "after" then
                if fr == "" then true
                else
                  match parseIsoDate fr with
                  | none => false
                  | some t => decide (t < d)
              else
                if (match (if fr == "" then none else parseIsoDate fr) with
                    | some f => decide (d < f)
                    | none => false) then false
                else if (match (if toS == "" then none else parseIsoDate toS) with
                    | some t => decide (t < d)
                    | none => false) then false
                else true
            | _ => true
      | FieldType.amount =>
        match condition.value with
        | FilterValue.minmax mn mx =>
          let n := jsToNum raw
          if mn != "" && !(parseJsNumber mn).isNaN
              && JNum.lt n (parseJsNumber mn) then false
          else if mx != "" && !(parseJsNumber mx).isNaN
              && JNum.lt (parseJsNumber mx) n then false
          else true
        | _ => true
      | FieldType.singleSelect =>
        let s := lowerCh (jsToStr raw).toList
        let fv := lowerCh (jsValueToStr condition.value).toList
        match condition.operator with
        | "is" => s == fv
        | "is_not" => s != fv
        | _ => true
      | FieldType.multiSelect =>
        let arr :=
          match raw with
          | JValue.arr xs => xs.map (fun (x : String) => lowerCh x.toList)
          | _ => []
        let selected :=
          match condition.value with
          | FilterValue.arr xs => xs.map (fun (x : String) => lowerCh x.toList)
          | _ => []
        if selected.isEmpty then true
        else
          match condition.operator with
          | "in" => selected.any (fun s => arr.contains s)
          | "not_in" => selected.all (fun s => !(arr.contains s))
          | "contains_all" => selected.all (fun s => arr.contains s)
          | _ => true
      | FieldType.boolean =>
        let actual := jsTruthy raw
        let expected := condition.value == FilterValue.bool true
          || condition.value == FilterValue.str "true"
        actual == expected

/-- Embeds the byField.set step of filterEmployees: a key is appended to
the key list at its first occurrence, matching Map insertion order. -/
def insertKey (acc : List String) (k : String) : List String :=
  if k ∈ acc then acc else acc ++ [k]

/-- Embeds filterEmployees (src/unnamed/part_003): drops the conditions
whose isValid flag is false, returns the input unchanged when none remain,
otherwise groups the valid conditions by field key and keeps a record when
every group has at least one matching condition. -/
def filterEmployees (employees : List Employee)
    (conditions : List FilterCondition) (cutoff : Int) : List Employee :=
  let validConditions := conditions.filter (fun c => c.isValid)
  if validConditions.isEmpty then employees
  else
    let keys := validConditions.foldl (fun acc c => insertKey acc c.fieldKey) []
    employees.filter (fun emp =>
      keys.all (fun k =>
        (validConditions.filter (fun c => c.fieldKey == k)).any
          (fun c => testCondition emp c cutoff)))

/-- Sort direction (src/src/types/index.ts); null means unsorted. -/
inductive SortDir where
  | asc
  | desc
  | null
deriving DecidableEq, Repr

/-- SortConfig (src/src/types/index.ts). -/
structure SortConfig where
  key : String
  dir : SortDir
deriving DecidableEq, Repr

/-- Lexicographic three-way comparison of character lists, the embedding
of localeCompare on the lowercased strings; returns -1, 0 or 1 as a
JavaScript number. -/
def lexCmpCh : List Char → List Char → ℚ
  | [], [] => 0
  | [], _ :: _ => -1
  | _ :: _, [] => 1
  | a :: as, b :: bs =>
    if a < b then -1 else if b < a then 1 else lexCmpCh as bs

/-- Embeds the inline comparator of useSortedData (src/unnamed/part_005):
resolves the sort key on both records and compares strings by lowercased
lexicographic order, numbers by difference, booleans as 0 and 1; any other
combination compares as 0. -/
def sortCmp (key : String) (a b : Employee) : ℚ :=
  match getNestedValue a key, getNestedValue b key with
  | some (JValue.str x), some (JValue.str y) =>
    lexCmpCh (lowerCh x.toList) (lowerCh y.toList)
  | some (JValue.num x), some (JValue.num y) => x - y
  | some (JValue.bool x), some (JValue.bool y) =>
    (if x then (1 : ℚ) else 0) - (if y then (1 : ℚ) else 0)
  | _, _ => 0

/-- Embeds the sortedData computation of useSortedData
(src/unnamed/part_005): a null direction returns the input unchanged,
otherwise the list is stable-sorted by the comparator, negated for the
descending direction.  Array.prototype.sort is embedded as the stable
insertion sort of the standard library. -/
def sortRecords (data : List Employee) (sort : SortConfig) : List Employee :=
  match sort.dir with
  | SortDir.null => data
  | SortDir.asc =>
    List.insertionSort (fun a b => sortCmp sort.key a b ≤ 0) data
  | SortDir.desc =>
    List.insertionSort (fun a b => -(sortCmp sort.key a b) ≤ 0) data

/-- Scalar-comparability test used to state the sort claim: two resolved
sort-key values are of the same scalar type when both are strings, both
are numbers, or both are booleans. -/
def sameScalar : Option JValue → Option JValue → Bool
  | some (JValue.str _), some (JValue.str _) => true
  | some (JValue.num _), some (JValue.num _) => true
  | some (JValue.bool _), some (JValue.bool _) => true
  | _, _ => false

/-- Specification-side retention predicate: a record passes when, for
every valid condition, some valid condition on the same field key matches
the record; this is the OR-within-a-field, AND-across-fields rule stated
without the grouping machinery. -/
def retainedSpec (conditions : List FilterCondition) (cutoff : Int)
    (emp : Employee) : Prop :=
  ∀ c ∈ conditions, c.isValid = true →
    ∃ c2 ∈ conditions, c2.isValid = true ∧ c2.fieldKey = c.fieldKey ∧
      testCondition emp c2 cutoff = true

instance (conditions : List FilterCondition) (cutoff : Int)
    (emp : Employee) : Decidable (retainedSpec conditions cutoff emp) := by
  unfold retainedSpec
  infer_instance

/-- Record builder for the conformance scenario of the combination
engine: only id, department and salary are significant, the remaining
fields take fixed benign values. -/
def scenarioEmployee (i : ℚ) (dept : String) (sal : ℚ) : Employee :=
  ⟨i, "", "", dept, "", sal, "2020-01-01", true, [], ⟨"", "", ""⟩, 0,
   "2020-01-01", 0⟩

/-- The record list of the conformance scenario. -/
def scenarioRecords : List Employee :=
  [scenarioEmployee 1 "Engineering" 95000,
   scenarioEmployee 2 "Design" 70000,
   scenarioEmployee 3 "Marketing" 120000]

/-- The condition list of the conformance scenario. -/
def scenarioConditions : List FilterCondition :=
  [⟨"1", "department", "is", FilterValue.str "Engineering", true⟩,
   ⟨"2", "department", "is", FilterValue.str "Design", true⟩,
   ⟨"3", "salary", "gt", FilterValue.str "80000", true⟩]

/-- Concrete employee record used by witnesses and counterexamples. -/
def refEmployee : Employee :=
  ⟨7, "Alice", "alice@example.com", "Engineering", "Developer", 95000,
   "2020-01-15", true, ["React", "Go"], ⟨"SF", "CA", "USA"⟩, 3,
   "2024-05-01", 4⟩

/-- Two-record list with distinct department values, used as the sort
witness data. -/
def sortWitnessData : List Employee :=
  [scenarioEmployee 2 "Design" 70000, scenarioEmployee 1 "Engineering" 95000]

/-- C1 counterexample: on the scenario records and conditions the
combination engine does not return the one-element list containing only
the record with id 1. -/
theorem c1_scenario_not_singleton :
    filterEmployees scenarioRecords scenarioConditions 0 ≠
      [scenarioEmployee 1 "Engineering" 95000] := by
  decide

/-- C1 (amended): on the scenario records and conditions the combination
engine returns the two-element list of the records with id 1 and id 2:
the gt condition on the amount-typed salary field carries a plain string
instead of a min and max object, so its amount branch imposes no
constraint, and the record with id 2 survives through the department OR
group. -/
theorem c1_scenario_result (cutoff : Int) :
    filterEmployees scenarioRecords scenarioConditions cutoff =
      [scenarioEmployee 1 "Engineering" 95000,
       scenarioEmployee 2 "Design" 70000] := by
  rfl

/-- C8: a condition whose field key is absent from the catalog is
rejected by the validator (fail-closed) while the predicate evaluator
accepts every record against it (fail-open). -/
theorem c8_unknown_field_asymmetry (cond : FilterCondition) (emp : Employee)
    (cutoff : Int) (h : ∀ f ∈ FIELD_DEFINITIONS, f.key ≠ cond.fieldKey) :
    validateCondition cond = false ∧ testCondition emp cond cutoff = true := by
  have hf : FIELD_DEFINITIONS.find? (fun f => f.key == cond.fieldKey) = none :=
    List.find?_eq_none.mpr (fun f hfm => by simpa using h f hfm)
  constructor
  · unfold validateCondition
    rw [hf]
  · unfold testCondition
    rw [hf]

/-- C8 witness at the concrete field key bogus. -/
theorem c8_unknown_field_asymmetry_witness :
    validateCondition ⟨"x", "bogus", "is", FilterValue.null, true⟩ = false ∧
    testCondition refEmployee ⟨"x", "bogus", "is", FilterValue.null, true⟩ 0 = true :=
  c8_unknown_field_asymmetry ⟨"x", "bogus", "is", FilterValue.null, true⟩
    refEmployee 0 (by decide)

/-- C9: filtering is idempotent: applying the combination engine twice
with the same conditions and clock gives the same result as applying it
once. -/
theorem c9_filter_idempotent (E : List Employee) (C : List FilterCondition)
    (cutoff : Int) :
    filterEmployees (filterEmployees E C cutoff) C cutoff =
      filterEmployees E C cutoff := by
  by_cases h : (C.filter (fun c => c.isValid)).isEmpty
  · simp [filterEmployees, h]
  · simp only [filterEmployees, h, if_neg, Bool.false_eq_true,
      not_false_eq_true, if_false]
    exact List.filter_eq_self.mpr (fun a ha => (List.mem_filter.mp ha).2)

/-- C3 counterexample: on a record whose date field resolves and parses
to a valid date, a before condition whose range has the non-empty but
unparseable from string not-a-date evaluates to false, not true. -/
theorem c3_before_unparseable_cex :
    getNestedValue refEmployee "joinDate" = some (JValue.str "2020-01-15") ∧
    parseIsoDate "2020-01-15" = some 20200115 ∧
    testCondition refEmployee
      ⟨"c", "joinDate", "before", FilterValue.range "not-a-date" "", true⟩
      0 = false := by
  refine ⟨rfl, by decide, by decide⟩

/-- C3 (amended): for a date-typed field with operator before or after
whose range value has a non-empty unparseable from string, the predicate
evaluator returns false for every record and clock (fail-closed on that
side, not fail-open as claimed). -/
theorem c3_before_after_unparseable_fail_closed (emp : Employee)
    (cond : FilterCondition) (cutoff : Int) (f : FieldDefinition)
    (fr toS : String)
    (hf : FIELD_DEFINITIONS.find? (fun fd => fd.key == cond.fieldKey) = some f)
    (ht : f.type = FieldType.date)
    (hop : cond.operator = "before" ∨ cond.operator = "after")
    (hv : cond.value = FilterValue.range fr toS)
    (hfr : fr ≠ "") (hbad : parseIsoDate fr = none) :
    testCondition emp cond cutoff = false := by
  have hfrb : (fr == "") = false := beq_eq_false_iff_ne.mpr hfr
  rcases hop with hop | hop <;>
  · cases hraw : getNestedValue emp cond.fieldKey with
    | none => simp [testCondition, hf, hraw]
    | some raw =>
      cases raw with
      | str s =>
        cases hds : parseIsoDate s with
        | none => simp [testCondition, hf, hraw, ht, hds]
        | some d =>
          simp [testCondition, hf, hraw, ht, hds, hv, hop, hfrb, hbad]
      | num q => simp [testCondition, hf, hraw, ht]
      | bool b => simp [testCondition, hf, hraw, ht]
      | arr xs => simp [testCondition, hf, hraw, ht]
      | obj a => simp [testCondition, hf, hraw, ht]

/-- C3 witness at the concrete unparseable threshold not-a-date. -/
theorem c3_before_after_unparseable_fail_closed_witness :
    testCondition refEmployee
      ⟨"c", "joinDate", "before", FilterValue.range "not-a-date" "", true⟩
      0 = false :=
  c3_before_after_unparseable_fail_closed refEmployee
    ⟨"c", "joinDate", "before", FilterValue.range "not-a-date" "", true⟩ 0
    ⟨"joinDate", "Join Date", FieldType.date, []⟩ "not-a-date" ""
    (by decide) rfl (Or.inl rfl) rfl (by decide) (by decide)

/-- C4 counterexample: the string Infinity is accepted by the validator
for a number-typed field with a non-between operator, although it parses
to positive infinity and not to any finite number. -/
theorem c4_infinity_accepted_cex :
    validateCondition
      ⟨"c", "projects", "gt", FilterValue.str "Infinity", true⟩ = true ∧
    parseJsNumber "Infinity" = JNum.inf true ∧
    (∀ q : ℚ, parseJsNumber "Infinity" ≠ JNum.num q) := by
  have hinf : parseJsNumber "Infinity" = JNum.inf true := by decide
  refine ⟨by decide, hinf, fun q h => ?_⟩
  rw [hinf] at h
  exact JNum.noConfusion h

/-- C4 (amended): for a number-typed field with an operator other than
between and a string value, the validator accepts exactly the non-empty
strings whose Number conversion is not NaN; an infinite conversion is
accepted as valid. -/
theorem c4_number_validation (cond : FilterCondition) (f : FieldDefinition)
    (s : String)
    (hf : FIELD_DEFINITIONS.find? (fun fd => fd.key == cond.fieldKey) = some f)
    (ht : f.type = FieldType.number)
    (hop : cond.operator ≠ "between")
    (hv : cond.value = FilterValue.str s) :
    validateCondition cond = (!(s == "") && !(parseJsNumber s).isNaN) := by
  have hne : (cond.operator == "between") = false := beq_eq_false_iff_ne.mpr hop
  by_cases hs : s = ""
  · subst hs
    simp [validateCondition, hf, ht, hne, hv]
  · have h1 : (FilterValue.str s == FilterValue.null) = false :=
      beq_eq_false_iff_ne.mpr (by simp)
    have h2 : (FilterValue.str s == FilterValue.str "") = false :=
      beq_eq_false_iff_ne.mpr (by simp [hs])
    have h3 : (s == "") = false := beq_eq_false_iff_ne.mpr hs
    simp [validateCondition, hf, ht, hne, hv, jsValueToNum, h1, h2, h3]
    exact fun _ => hs

/-- C4 witness at the concrete value 5. -/
theorem c4_number_validation_witness :
    validateCondition ⟨"w", "projects", "gt", FilterValue.str "5", false⟩ =
      (!(("5" : String) == "") && !(parseJsNumber "5").isNaN) :=
  c4_number_validation ⟨"w", "projects", "gt", FilterValue.str "5", false⟩
    ⟨"projects", "Projects Count", FieldType.number, []⟩ "5" (by decide) rfl
    (by decide) rfl

/-- C10: for a date-typed field with an operator other than last_30_days
and a value that is not a from-and-to range object, the predicate
evaluator returns true for every record whose date field resolves to a
string that parses to a valid date. -/
theorem c10_date_shape_mismatch_fail_open (emp : Employee)
    (cond : FilterCondition) (cutoff : Int) (f : FieldDefinition)
    (hf : FIELD_DEFINITIONS.find? (fun fd => fd.key == cond.fieldKey) = some f)
    (ht : f.type = FieldType.date)
    (hop : cond.operator ≠ "last_30_days")
    (hv : ∀ fr toS, cond.value ≠ FilterValue.range fr toS)
    (ds : String)
    (hraw : getNestedValue emp cond.fieldKey = some (JValue.str ds))
    (d : Int) (hd : parseIsoDate ds = some d) :
    testCondition emp cond cutoff = true := by
  have hne : (cond.operator == "last_30_days") = false :=
    beq_eq_false_iff_ne.mpr hop
  cases hcv : cond.value with
  | range fr toS => exact absurd hcv (hv fr toS)
  | str s => simp [testCondition, hf, hraw, ht, hd, hne, hcv]
  | bool b => simp [testCondition, hf, hraw, ht, hd, hne, hcv]
  | arr xs => simp [testCondition, hf, hraw, ht, hd, hne, hcv]
  | minmax mn mx => simp [testCondition, hf, hraw, ht, hd, hne, hcv]
  | null => simp [testCondition, hf, hraw, ht, hd, hne, hcv]

/-- C10 witness: a date equals condition carrying null matches a record
with a valid date. -/
theorem c10_date_shape_mismatch_fail_open_witness :
    testCondition refEmployee
      ⟨"c", "joinDate", "equals", FilterValue.null, true⟩ 0 = true :=
  c10_date_shape_mismatch_fail_open refEmployee
    ⟨"c", "joinDate", "equals", FilterValue.null, true⟩ 0
    ⟨"joinDate", "Join Date", FieldType.date, []⟩ (by decide) rfl (by decide)
    (fun fr toS h => FilterValue.noConfusion h) "2020-01-15" rfl 20200115
    (by decide)

/-- Membership characterisation of the key-collection fold used by
filterEmployees: a key occurs in the collected list exactly when it is
already in the accumulator or is the field key of some condition. -/
theorem mem_foldl_insertKey (l : List FilterCondition) (acc : List String)
    (k : String) :
    (k ∈ l.foldl (fun acc c => insertKey acc c.fieldKey) acc) ↔
      k ∈ acc ∨ ∃ c ∈ l, c.fieldKey = k := by
  induction l generalizing acc with
  | nil => simp
  | cons a t ih =>
    rw [List.foldl_cons, ih]
    unfold insertKey
    by_cases h : a.fieldKey ∈ acc
    · simp only [if_pos h, List.exists_mem_cons_iff]
      constructor
      · rintro (hk | hc)
        · exact Or.inl hk
        · exact Or.inr (Or.inr hc)
      · rintro (hk | hka | hc)
        · exact Or.inl hk
        · exact Or.inl (hka ▸ h)
        · exact Or.inr hc
    · simp only [if_neg h, List.mem_append, List.mem_singleton,
        List.exists_mem_cons_iff]
      constructor
      · rintro ((hk | hka) | hc)
        · exact Or.inl hk
        · exact Or.inr (Or.inl hka.symm)
        · exact Or.inr (Or.inr hc)
      · rintro (hk | hka | hc)
        · exact Or.inl (Or.inl hk)
        · exact Or.inl (Or.inr hka.symm)
        · exact Or.inr hc

/-- C2: the combination engine retains exactly the records satisfying the
OR-within-a-field, AND-across-fields rule over the valid conditions,
preserving input order (the result is a filter of the input); invalid
conditions have no effect, and with no valid conditions the input is
returned unchanged. -/
theorem c2_filter_group_semantics (E : List Employee)
    (C : List FilterCondition) (cutoff : Int) :
    filterEmployees E C cutoff =
      E.filter (fun emp => decide (retainedSpec C cutoff emp)) ∧
    (C.filter (fun c => c.isValid) = [] → filterEmployees E C cutoff = E) := by
  constructor
  · by_cases h : (C.filter (fun c => c.isValid)).isEmpty
    · have hnil : C.filter (fun c => c.isValid) = [] :=
        List.isEmpty_iff.mp h
      have hall : ∀ emp : Employee,
          decide (retainedSpec C cutoff emp) = true := by
        intro emp
        rw [decide_eq_true_eq]
        intro c hc hval
        exact absurd (List.mem_filter.mpr ⟨hc, hval⟩)
          (by simp [hnil])
      rw [show filterEmployees E C cutoff = E from by
        simp [filterEmployees, h]]
      exact (List.filter_eq_self.mpr (fun a _ => hall a)).symm
    · simp only [filterEmployees, h, Bool.false_eq_true, if_false]
      apply List.filter_congr
      intro emp _
      rw [Bool.eq_iff_iff]
      simp only [List.all_eq_true, List.any_eq_true, decide_eq_true_eq,
        retainedSpec]
      constructor
      · intro hall c hc hval
        have hk : c.fieldKey ∈ (C.filter (fun c => c.isValid)).foldl
            (fun acc c => insertKey acc c.fieldKey) [] := by
          rw [mem_foldl_insertKey]
          exact Or.inr ⟨c, List.mem_filter.mpr ⟨hc, hval⟩, rfl⟩
        obtain ⟨c2, hc2, htest⟩ := hall c.fieldKey hk
        obtain ⟨hc2v, hc2k⟩ := List.mem_filter.mp hc2
        obtain ⟨hc2C, hc2val⟩ := List.mem_filter.mp hc2v
        exact ⟨c2, hc2C, hc2val, by simpa using hc2k, htest⟩
      · intro hspec k hk
        rw [mem_foldl_insertKey] at hk
        rcases hk with hk | ⟨c, hcv, hck⟩
        · exact absurd hk (List.not_mem_nil k)
        · obtain ⟨hcC, hcval⟩ := List.mem_filter.mp hcv
          obtain ⟨c2, hc2C, hc2val, hc2k, htest⟩ := hspec c hcC hcval
          refine ⟨c2, List.mem_filter.mpr
            ⟨List.mem_filter.mpr ⟨hc2C, hc2val⟩, ?_⟩, htest⟩
          simp [hc2k, hck]
  · intro hnil
    simp [filterEmployees, hnil]

/-- C2 witness: with no conditions at all the engine is the identity. -/
theorem c2_filter_group_semantics_witness :
    filterEmployees [refEmployee] [] 0 = [refEmployee] :=
  (c2_filter_group_semantics [refEmployee] [] 0).2 rfl

/-- Every number-typed catalog field resolves on every Employee to a
numeric value (the catalog number fields are projects and
performanceRating, both rational fields of the record). -/
theorem numberField_resolves (key : String) (f : FieldDefinition)
    (hf : FIELD_DEFINITIONS.find? (fun fd => fd.key == key) = some f)
    (ht : f.type = FieldType.number) (emp : Employee) :
    ∃ q : ℚ, getNestedValue emp key = some (JValue.num q) := by
  have hmem : f ∈ FIELD_DEFINITIONS := List.mem_of_find?_eq_some hf
  have hkey : f.key = key := by simpa using List.find?_some hf
  subst hkey
  simp only [FIELD_DEFINITIONS, List.mem_cons, List.not_mem_nil,
    or_false] at hmem
  rcases hmem with rfl | rfl | rfl | rfl | rfl | rfl | rfl | rfl | rfl |
    rfl | rfl | rfl | rfl | rfl
  all_goals first
    | exact ⟨emp.projects, rfl⟩
    | exact ⟨emp.performanceRating, rfl⟩
    | simp at ht

/-- The only multi-select catalog field is skills, so a multi-select
field key resolves on every Employee to its skills array. -/
theorem multiField_resolves (key : String) (f : FieldDefinition)
    (hf : FIELD_DEFINITIONS.find? (fun fd => fd.key == key) = some f)
    (ht : f.type = FieldType.multiSelect) (emp : Employee) :
    getNestedValue emp key = some (JValue.arr emp.skills) := by
  have hmem : f ∈ FIELD_DEFINITIONS := List.mem_of_find?_eq_some hf
  have hkey : f.key = key := by simpa using List.find?_some hf
  subst hkey
  simp only [FIELD_DEFINITIONS, List.mem_cons, List.not_mem_nil,
    or_false] at hmem
  rcases hmem with rfl | rfl | rfl | rfl | rfl | rfl | rfl | rfl | rfl |
    rfl | rfl | rfl | rfl | rfl
  all_goals first
    | rfl
    | simp at ht

/-- C5: on a number-typed field, a between condition with only the min
bound behaves exactly as the gte condition with that bound, a between
condition with only the max bound behaves exactly as the lte condition
with that bound, and a between condition with both bounds empty is
rejected by the validator. -/
theorem c5_between_degenerate (key : String) (f : FieldDefinition)
    (hf : FIELD_DEFINITIONS.find? (fun fd => fd.key == key) = some f)
    (ht : f.type = FieldType.number) (emp : Employee) (cutoff : Int)
    (i1 i2 i3 : String) (b1 b2 b3 : Bool) :
    (∀ m : String, m ≠ "" →
      testCondition emp ⟨i1, key, "between", FilterValue.minmax m "", b1⟩
          cutoff =
        testCondition emp ⟨i2, key, "gte", FilterValue.str m, b2⟩ cutoff) ∧
    (∀ mx : String, mx ≠ "" →
      testCondition emp ⟨i1, key, "between", FilterValue.minmax "" mx, b1⟩
          cutoff =
        testCondition emp ⟨i2, key, "lte", FilterValue.str mx, b2⟩ cutoff) ∧
    validateCondition ⟨i3, key, "between", FilterValue.minmax "" "", b3⟩ =
      false := by
  obtain ⟨q, hq⟩ := numberField_resolves key f hf ht emp
  refine ⟨?_, ?_, ?_⟩
  · intro m hm
    have hmb : (m == "") = false := beq_eq_false_iff_ne.mpr hm
    cases hpm : parseJsNumber m with
    | nan =>
      simp [testCondition, hf, hq, ht, hpm, hmb, hm, jsValueToNum, jsToNum,
        JNum.isNaN]
    | inf p =>
      cases p <;>
        simp [testCondition, hf, hq, ht, hpm, hmb, hm, jsValueToNum, jsToNum,
          JNum.isNaN, JNum.lt, JNum.le]
    | num y =>
      simp [testCondition, hf, hq, ht, hpm, hmb, hm, jsValueToNum, jsToNum,
        JNum.isNaN, JNum.lt, JNum.le, ← decide_not, not_lt]
  · intro mx hmx
    have hmb : (mx == "") = false := beq_eq_false_iff_ne.mpr hmx
    cases hpm : parseJsNumber mx with
    | nan =>
      simp [testCondition, hf, hq, ht, hpm, hmb, hmx, jsValueToNum, jsToNum,
        JNum.isNaN]
    | inf p =>
      cases p <;>
        simp [testCondition, hf, hq, ht, hpm, hmb, hmx, jsValueToNum, jsToNum,
          JNum.isNaN, JNum.lt, JNum.le]
    | num y =>
      simp [testCondition, hf, hq, ht, hpm, hmb, hmx, jsValueToNum, jsToNum,
        JNum.isNaN, JNum.lt, JNum.le, ← decide_not, not_lt]
  · simp [validateCondition, hf, ht]

/-- C5 witness on the projects field with bound 2. -/
theorem c5_between_degenerate_witness :
    testCondition refEmployee
      ⟨"a", "projects", "between", FilterValue.minmax "2" "", true⟩ 0 =
    testCondition refEmployee
      ⟨"b", "projects", "gte", FilterValue.str "2", true⟩ 0 :=
  (c5_between_degenerate "projects"
    ⟨"projects", "Projects Count", FieldType.number, []⟩ (by decide) rfl
    refEmployee 0 "a" "b" "c" true true true).1 "2" (by decide)

/-- C6: on a multi-select field with a non-empty selected list, the
not_in predicate is the exact negation of the in predicate for the same
selection and record. -/
theorem c6_in_not_in_negation (key : String) (f : FieldDefinition)
    (hf : FIELD_DEFINITIONS.find? (fun fd => fd.key == key) = some f)
    (ht : f.type = FieldType.multiSelect) (emp : Employee)
    (sel : List String) (hs : sel ≠ []) (cutoff : Int)
    (i1 i2 : String) (b1 b2 : Bool) :
    testCondition emp ⟨i1, key, "in", FilterValue.arr sel, b1⟩ cutoff =
      !(testCondition emp ⟨i2, key, "not_in", FilterValue.arr sel, b2⟩
        cutoff) := by
  have hraw := multiField_resolves key f hf ht emp
  have hsel : (sel.map (fun (x : String) => lowerCh x.toList)).isEmpty
      = false := by
    cases sel with
    | nil => exact absurd rfl hs
    | cons a t => rfl
  simp only [testCondition, hf, hraw, ht, hsel, Bool.false_eq_true,
    if_false]
  exact List.any_eq_not_all_not _ _

/-- C6 witness on the skills field with the single selection go. -/
theorem c6_in_not_in_negation_witness :
    testCondition refEmployee
      ⟨"a", "skills", "in", FilterValue.arr ["go"], true⟩ 0 =
      !(testCondition refEmployee
        ⟨"b", "skills", "not_in", FilterValue.arr ["go"], true⟩ 0) :=
  c6_in_not_in_negation "skills"
    ⟨"skills", "Skills", FieldType.multiSelect, ALL_SKILLS⟩ (by decide) rfl
    refEmployee ["go"] (by decide) 0 "a" "b" true true

/-- Antisymmetry of the lexicographic comparison: swapping the arguments
negates the result. -/
theorem lexCmpCh_neg (x : List Char) : ∀ y : List Char,
    lexCmpCh x y = -(lexCmpCh y x) := by
  induction x with
  | nil => intro y; cases y <;> simp [lexCmpCh]
  | cons a as ih =>
    intro y
    cases y with
    | nil => simp [lexCmpCh]
    | cons b bs =>
      rcases lt_trichotomy a b with h | h | h
      · simp [lexCmpCh, h, lt_asymm h]
      · subst h
        simp [lexCmpCh, lt_irrefl, ih bs]
      · simp [lexCmpCh, h, lt_asymm h]

/-- The nonpositive side of the lexicographic comparison is transitive. -/
theorem lexCmpCh_le_trans (x : List Char) : ∀ y z : List Char,
    lexCmpCh x y ≤ 0 → lexCmpCh y z ≤ 0 → lexCmpCh x z ≤ 0 := by
  induction x with
  | nil =>
    intro y z _ _
    cases z <;> norm_num [lexCmpCh]
  | cons a as ih =>
    intro y z h1 h2
    cases y with
    | nil => norm_num [lexCmpCh] at h1
    | cons b bs =>
      cases z with
      | nil => norm_num [lexCmpCh] at h2
      | cons c cs =>
        rcases lt_trichotomy a b with hab | hab | hab
        · rcases lt_trichotomy b c with hbc | hbc | hbc
          · norm_num [lexCmpCh, hab.trans hbc]
          · subst hbc
            norm_num [lexCmpCh, hab]
          · norm_num [lexCmpCh, hbc, lt_asymm hbc] at h2
        · subst hab
          have h1' : lexCmpCh as bs ≤ 0 := by
            simpa [lexCmpCh, lt_irrefl] using h1
          rcases lt_trichotomy a c with hac | hac | hac
          · norm_num [lexCmpCh, hac]
          · subst hac
            have h2' : lexCmpCh bs cs ≤ 0 := by
              simpa [lexCmpCh, lt_irrefl] using h2
            simpa [lexCmpCh, lt_irrefl] using ih bs cs h1' h2'
          · norm_num [lexCmpCh, hac, lt_asymm hac] at h2
        · norm_num [lexCmpCh, hab, lt_asymm hab] at h1

/-- Antisymmetry of the sort comparator: swapping the records negates
the result. -/
theorem sortCmp_neg (key : String) (a b : Employee) :
    sortCmp key a b = -(sortCmp key b a) := by
  cases hva : getNestedValue a key with
  | none =>
    cases hvb : getNestedValue b key with
    | none => simp [sortCmp, hva, hvb]
    | some v => cases v <;> simp [sortCmp, hva, hvb]
  | some u =>
    cases hvb : getNestedValue b key with
    | none => cases u <;> simp [sortCmp, hva, hvb]
    | some v =>
      cases u <;> cases v <;>
        simp only [sortCmp, hva, hvb] <;>
        first
          | exact lexCmpCh_neg _ _
          | ring

/-- Totality of the nonpositive side of the sort comparator. -/
theorem sortCmp_total (key : String) (a b : Employee) :
    sortCmp key a b ≤ 0 ∨ sortCmp key b a ≤ 0 := by
  rcases le_total (sortCmp key a b) 0 with h | h
  · exact Or.inl h
  · refine Or.inr ?_
    rw [sortCmp_neg key b a]
    linarith

/-- A pair accepted by sameScalar consists of two strings, two numbers,
or two booleans. -/
theorem sameScalar_cases (u v : Option JValue)
    (h : sameScalar u v = true) :
    (∃ x y, u = some (JValue.str x) ∧ v = some (JValue.str y)) ∨
    (∃ x y, u = some (JValue.num x) ∧ v = some (JValue.num y)) ∨
    (∃ x y, u = some (JValue.bool x) ∧ v = some (JValue.bool y)) := by
  rcases u with _ | u
  · rcases v with _ | v
    · simp [sameScalar] at h
    · cases v <;> simp [sameScalar] at h
  · rcases v with _ | v
    · cases u <;> simp [sameScalar] at h
    · cases u <;> cases v <;>
        first
          | exact Or.inl ⟨_, _, rfl, rfl⟩
          | exact Or.inr (Or.inl ⟨_, _, rfl, rfl⟩)
          | exact Or.inr (Or.inr ⟨_, _, rfl, rfl⟩)
          | simp [sameScalar] at h

/-- On a record list whose resolved sort-key values are pairwise of the
same scalar type, the nonpositive side of the sort comparator is
transitive between members. -/
theorem sortCmp_le_trans_of_comparable (key : String)
    (data : List Employee)
    (hcomp : ∀ a ∈ data, ∀ b ∈ data,
      sameScalar (getNestedValue a key) (getNestedValue b key) = true ∧
      (sortCmp key a b = 0 → a = b))
    (a : Employee) (ha : a ∈ data) (b : Employee) (hb : b ∈ data)
    (c : Employee) (hc : c ∈ data)
    (h1 : sortCmp key a b ≤ 0) (h2 : sortCmp key b c ≤ 0) :
    sortCmp key a c ≤ 0 := by
  have hab := (hcomp a ha b hb).1
  have hbc := (hcomp b hb c hc).1
  rcases sameScalar_cases _ _ hab with ⟨x, y, hu, hv⟩ | ⟨x, y, hu, hv⟩ |
    ⟨x, y, hu, hv⟩ <;>
  rcases sameScalar_cases _ _ hbc with ⟨x2, y2, hu2, hv2⟩ |
    ⟨x2, y2, hu2, hv2⟩ | ⟨x2, y2, hu2, hv2⟩ <;>
  · simp only [sortCmp, hu, hv, hv2] at h1 h2 ⊢
    first
      | exact lexCmpCh_le_trans _ _ _ h1 h2
      | linarith

/-- Inserting an element into a pairwise-ordered list preserves the
pairwise order, under totality and transitivity restricted to an ambient
member list. -/
theorem pairwise_orderedInsert {α : Type} (r : α → α → Prop)
    [DecidableRel r] (L : List α)
    (tot : ∀ a ∈ L, ∀ b ∈ L, r a b ∨ r b a)
    (htr : ∀ a ∈ L, ∀ b ∈ L, ∀ c ∈ L, r a b → r b c → r a c)
    (x : α) (hx : x ∈ L) :
    ∀ l : List α, (∀ a ∈ l, a ∈ L) → l.Pairwise r →
      (List.orderedInsert r x l).Pairwise r := by
  intro l
  induction l with
  | nil =>
    intro _ _
    simp
  | cons y ys ih =>
    intro hsub hp
    have hy : y ∈ L := hsub y (List.mem_cons_self y ys)
    have hrp := List.pairwise_cons.mp hp
    by_cases h : r x y
    · rw [List.orderedInsert, if_pos h]
      constructor
      · intro z hz
        rcases List.mem_cons.mp hz with rfl | hz'
        · exact h
        · exact htr x hx y hy z (hsub z (List.mem_cons_of_mem y hz')) h
            (hrp.1 z hz')
      · exact hp
    · rw [List.orderedInsert, if_neg h]
      constructor
      · intro z hz
        rcases (List.mem_orderedInsert r).mp hz with hzx | hz'
        · rw [hzx]
          rcases tot x hx y hy with hxy | hyx
          · exact absurd hxy h
          · exact hyx
        · exact hrp.1 z hz'
      · exact ih (fun a ha => hsub a (List.mem_cons_of_mem y ha)) hrp.2

/-- Insertion sort produces a pairwise-ordered list, under totality and
transitivity restricted to an ambient member list. -/
theorem pairwise_insertionSort_local {α : Type} (r : α → α → Prop)
    [DecidableRel r] (L : List α)
    (tot : ∀ a ∈ L, ∀ b ∈ L, r a b ∨ r b a)
    (htr : ∀ a ∈ L, ∀ b ∈ L, ∀ c ∈ L, r a b → r b c → r a c) :
    ∀ l : List α, (∀ a ∈ l, a ∈ L) →
      (List.insertionSort r l).Pairwise r := by
  intro l
  induction l with
  | nil =>
    intro _
    simp
  | cons a t ih =>
    intro hsub
    show (List.orderedInsert r a (List.insertionSort r t)).Pairwise r
    apply pairwise_orderedInsert r L tot htr a
      (hsub a (List.mem_cons_self a t))
    · intro b hb
      exact hsub b (List.mem_cons_of_mem a
        ((List.perm_insertionSort r t).mem_iff.mp hb))
    · exact ih (fun b hb => hsub b (List.mem_cons_of_mem a hb))

/-- Two pairwise-ordered permutations of each other are equal when the
order is antisymmetric between the members. -/
theorem eq_of_perm_of_pairwise {α : Type} {R : α → α → Prop} :
    ∀ {l₁ l₂ : List α}, l₁.Perm l₂ → l₁.Pairwise R → l₂.Pairwise R →
      (∀ a ∈ l₁, ∀ b ∈ l₁, R a b → R b a → a = b) → l₁ = l₂ := by
  intro l₁
  induction l₁ with
  | nil =>
    intro l₂ hperm _ _ _
    exact (List.Perm.eq_nil hperm.symm).symm
  | cons a t ih =>
    intro l₂ hperm hp1 hp2 hanti
    have ha2 : a ∈ l₂ := hperm.mem_iff.mp (List.mem_cons_self a t)
    cases l₂ with
    | nil => exact absurd ha2 (List.not_mem_nil a)
    | cons b t₂ =>
      have hab : a = b := by
        rcases List.mem_cons.mp ha2 with h | h
        · exact h
        · have hb1 : b ∈ a :: t :=
            hperm.mem_iff.mpr (List.mem_cons_self b t₂)
          rcases List.mem_cons.mp hb1 with h' | h'
          · exact h'.symm
          · exact hanti a (List.mem_cons_self a t) b
              (List.mem_cons_of_mem a h')
              ((List.pairwise_cons.mp hp1).1 b h')
              ((List.pairwise_cons.mp hp2).1 a h)
      subst hab
      have hperm' : t.Perm t₂ := hperm.cons_inv
      rw [ih hperm' (List.pairwise_cons.mp hp1).2
        (List.pairwise_cons.mp hp2).2
        (fun p hp q hq hpq hqp =>
          hanti p (List.mem_cons_of_mem a hp) q
            (List.mem_cons_of_mem a hq) hpq hqp)]

/-- C7: with a null direction the sort returns the input unchanged, and
on every record list whose resolved sort-key values are pairwise of the
same scalar type with no two records comparing equal unless they are the
same record, sorting ascending and then reversing yields exactly the
descending sort. -/
theorem c7_sort_reverse (data : List Employee) (key : String) :
    sortRecords data ⟨key, SortDir.null⟩ = data ∧
    ((∀ a ∈ data, ∀ b ∈ data,
        sameScalar (getNestedValue a key) (getNestedValue b key) = true ∧
        (sortCmp key a b = 0 → a = b)) →
      (sortRecords data ⟨key, SortDir.asc⟩).reverse =
        sortRecords data ⟨key, SortDir.desc⟩) := by
  refine ⟨rfl, fun hcomp => ?_⟩
  show (List.insertionSort (fun a b => sortCmp key a b ≤ 0) data).reverse =
    List.insertionSort (fun a b => -(sortCmp key a b) ≤ 0) data
  have tot1 : ∀ a ∈ data, ∀ b ∈ data,
      sortCmp key a b ≤ 0 ∨ sortCmp key b a ≤ 0 :=
    fun a _ b _ => sortCmp_total key a b
  have htr1 : ∀ a ∈ data, ∀ b ∈ data, ∀ c ∈ data,
      sortCmp key a b ≤ 0 → sortCmp key b c ≤ 0 → sortCmp key a c ≤ 0 :=
    fun a ha b hb c hc =>
      sortCmp_le_trans_of_comparable key data hcomp a ha b hb c hc
  have tot2 : ∀ a ∈ data, ∀ b ∈ data,
      -(sortCmp key a b) ≤ 0 ∨ -(sortCmp key b a) ≤ 0 := by
    intro a _ b _
    rcases le_total 0 (sortCmp key a b) with h | h
    · exact Or.inl (by linarith)
    · refine Or.inr ?_
      rw [sortCmp_neg key b a]
      linarith
  have htr2 : ∀ a ∈ data, ∀ b ∈ data, ∀ c ∈ data,
      -(sortCmp key a b) ≤ 0 → -(sortCmp key b c) ≤ 0 →
        -(sortCmp key a c) ≤ 0 := by
    intro a ha b hb c hc h1 h2
    have h1' : sortCmp key b a ≤ 0 := by
      rw [sortCmp_neg key b a]
      linarith
    have h2' : sortCmp key c b ≤ 0 := by
      rw [sortCmp_neg key c b]
      linarith
    have h3 := sortCmp_le_trans_of_comparable key data hcomp c hc b hb a ha
      h2' h1'
    rw [sortCmp_neg key c a] at h3
    linarith
  have h1 : (List.insertionSort (fun a b => sortCmp key a b ≤ 0)
      data).Pairwise (fun a b => sortCmp key a b ≤ 0) :=
    pairwise_insertionSort_local _ data tot1 htr1 data (fun _ h => h)
  have h2 : (List.insertionSort (fun a b => -(sortCmp key a b) ≤ 0)
      data).Pairwise (fun a b => -(sortCmp key a b) ≤ 0) :=
    pairwise_insertionSort_local _ data tot2 htr2 data (fun _ h => h)
  have h1' : (List.insertionSort (fun a b => sortCmp key a b ≤ 0)
      data).Pairwise (fun a b => -(sortCmp key b a) ≤ 0) := by
    refine h1.imp ?_
    intro a b h
    rw [sortCmp_neg key b a]
    linarith
  have hrev : ((List.insertionSort (fun a b => sortCmp key a b ≤ 0)
      data).reverse).Pairwise (fun a b => -(sortCmp key a b) ≤ 0) :=
    List.pairwise_reverse.mpr h1'
  have pL : ((List.insertionSort (fun a b => sortCmp key a b ≤ 0)
      data).reverse).Perm data :=
    (List.reverse_perm _).trans (List.perm_insertionSort _ data)
  have pR : (List.insertionSort (fun a b => -(sortCmp key a b) ≤ 0)
      data).Perm data :=
    List.perm_insertionSort _ data
  refine eq_of_perm_of_pairwise (pL.trans pR.symm) hrev h2 ?_
  intro a ha b hb hab hba
  have ha' : a ∈ data := pL.mem_iff.mp ha
  have hb' : b ∈ data := pL.mem_iff.mp hb
  have h0 : sortCmp key a b = 0 := by
    have hge : 0 ≤ sortCmp key a b := by linarith
    have hge2 : 0 ≤ sortCmp key b a := by linarith
    rw [sortCmp_neg key b a] at hge2
    linarith
  exact (hcomp a ha' b hb').2 h0

/-- C7 witness on two records with distinct department strings. -/
theorem c7_sort_reverse_witness :
    (sortRecords sortWitnessData ⟨"department", SortDir.asc⟩).reverse =
      sortRecords sortWitnessData ⟨"department", SortDir.desc⟩ :=
  (c7_sort_reverse sortWitnessData "department").2 (by decide)
